import Mathlib

/-!
Shallow embedding of the Optimizely Labs experiment-attribution notebooks.

Two notebooks are embedded:

* `computing-experiment-subjects` — loads decision data, restricts it to the
  analysis window (`timestamp BETWEEN decisions_start AND decisions_end`),
  computes the `experiment_subjects` view by keeping, per
  (experiment_id, visitor_id) partition, the rows of rank 1 when ordered by
  ascending timestamp (`RANK() OVER (PARTITION BY experiment_id, visitor_id
  ORDER BY timestamp ASC)` with `rnk = 1`, then `ORDER BY timestamp ASC`),
  and finally rolls subjects up with
  `GROUP BY experiment_id, variation_id -> COUNT(1)`.

* `query-enriched-event-data-with-spark` — loads `decisions` and `events`
  views and runs four aggregate queries: unique visitors under the
  Optimizely Web and Full Stack policies, and conversion counts under the
  Web and Full Stack policies.

Timestamps are modelled as `Nat` (the notebooks compare timestamp literals
with `BETWEEN`, an inclusive total-order comparison).  Each SQL query over
the two loaded tables becomes a Lean function taking the events and the
decisions collections; a query whose `FROM` clause mentions only one of the
tables still receives both, and simply never inspects the other.  Grouped
aggregates (`GROUP BY k ... COUNT(...)`) are modelled as functions from the
group key `k` to the count for that key.
-/

/-- A row of the `decisions` table (Enriched Events decision record), with
the fields the notebooks read.  `subject_id` is configurable upstream and
defaults to `visitor_id`; we use `visitor_id`, as the notebooks do. -/
structure Decision where
  visitor_id : String
  experiment_id : String
  variation_id : String
  timestamp : Nat
  is_holdback : Bool
  deriving Repr, DecidableEq

/-- A row of the `events` table (Enriched Events conversion record):
`experiments` is the pre-computed enrichment list of
(experiment_id, variation_id) pairs attributed to the event upstream. -/
structure Event where
  visitor_id : String
  event_name : String
  timestamp : Nat
  experiments : List (String × String)
  deriving Repr, DecidableEq

/-- A row of the `experiment_subjects` view: the projection
`SELECT visitor_id, experiment_id, variation_id, timestamp`. -/
structure ExperimentSubject where
  visitor_id : String
  experiment_id : String
  variation_id : String
  timestamp : Nat
  deriving Repr, DecidableEq

/-- The window filter: `WHERE timestampField BETWEEN lo AND hi`
(`BETWEEN` is inclusive on both ends). -/
def filterWindow {α : Type} (rows : List α) (ts : α → Nat) (lo hi : Nat) : List α :=
  rows.filter (fun r => decide (lo ≤ ts r ∧ ts r ≤ hi))

/-- Whether two decisions fall in the same `PARTITION BY experiment_id, visitor_id`
partition. -/
def sameKey (d d' : Decision) : Bool :=
  decide (d.experiment_id = d'.experiment_id ∧ d.visitor_id = d'.visitor_id)

/-- `RANK() OVER (PARTITION BY experiment_id, visitor_id ORDER BY timestamp ASC) = 1`:
a decision has rank 1 exactly when no decision of its partition has a strictly
smaller timestamp. -/
def isRankOne (ds : List Decision) (d : Decision) : Bool :=
  ds.all (fun d' => !sameKey d d' || decide (d.timestamp ≤ d'.timestamp))

/-- The projection of a decision onto the `experiment_subjects` columns. -/
def toSubject (d : Decision) : ExperimentSubject :=
  ⟨d.visitor_id, d.experiment_id, d.variation_id, d.timestamp⟩

/-- The `experiment_subjects` view: keep the rank-1 rows of each
(experiment_id, visitor_id) partition (ties at the minimum timestamp all have
rank 1 and are all kept), project, and `ORDER BY timestamp ASC`. -/
def experiment_subjects (ds : List Decision) : List ExperimentSubject :=
  ((ds.filter (isRankOne ds)).map toSubject).insertionSort
    (fun r r' => r.timestamp ≤ r'.timestamp)

/-- The rollup `SELECT experiment_id, variation_id, COUNT(1) as subject_count
FROM experiment_subjects GROUP BY experiment_id, variation_id`, as a function
from the group key to its count. -/
def subject_count (subs : List ExperimentSubject) (x v : String) : Nat :=
  subs.countP (fun r => decide (r.experiment_id = x ∧ r.variation_id = v))

/-- The decision list of the concrete scenario:
decisions = [(s1,e1,vA,t=10), (s1,e1,vB,t=20), (s2,e1,vA,t=15)]. -/
def exampleDecisions : List Decision :=
  [⟨"s1", "e1", "vA", 10, false⟩, ⟨"s1", "e1", "vB", 20, false⟩,
   ⟨"s2", "e1", "vA", 15, false⟩]

/-! Definitions for the `query-enriched-event-data-with-spark` notebook.
Each SQL query becomes a function of the loaded `events` and `decisions`
collections, the analysis window `[lo, hi]` (the notebook's `start`/`end`
parameters), and the group key of the aggregate. -/

/-- The decisions-side WHERE clause shared by the Full Stack queries and the
decisions branch of the Web unique-visitors query:
`timestamp between start and end AND is_holdback = false`. -/
def fsQualifying (ds : List Decision) (lo hi : Nat) : List Decision :=
  ds.filter (fun d => decide (lo ≤ d.timestamp ∧ d.timestamp ≤ hi ∧ d.is_holdback = false))

/-- Events branch of the Web unique-visitors query:
`LATERAL VIEW explode(experiments)` over in-window events, projected to
(experiment_id, variation_id, visitor_id) triples. -/
def webEventTriples (evs : List Event) (lo hi : Nat) : List (String × String × String) :=
  (evs.filter (fun e => decide (lo ≤ e.timestamp ∧ e.timestamp ≤ hi))).flatMap
    (fun e => e.experiments.map (fun pr => (pr.1, pr.2, e.visitor_id)))

/-- Decisions branch of the Web unique-visitors query, projected to
(experiment_id, variation_id, visitor_id) triples. -/
def webDecisionTriples (ds : List Decision) (lo hi : Nat) : List (String × String × String) :=
  (fsQualifying ds lo hi).map (fun d => (d.experiment_id, d.variation_id, d.visitor_id))

/-- The `UNION` of the two branches (SQL `UNION` removes duplicates). -/
def webVisitorRows (evs : List Event) (ds : List Decision) (lo hi : Nat) :
    List (String × String × String) :=
  (webEventTriples evs lo hi ++ webDecisionTriples ds lo hi).dedup

/-- The visitor_ids that the Web unique-visitors query collects for the group
(x, v). -/
def webPairVisitors (evs : List Event) (ds : List Decision) (lo hi : Nat) (x v : String) :
    List String :=
  ((webVisitorRows evs ds lo hi).filter (fun t => decide (t.1 = x ∧ t.2.1 = v))).map
    (fun t => t.2.2)

/-- `Unique visitors (Optimizely Web)`: `COUNT(distinct visitor_id)` for the
group (x, v). -/
def uniqueVisitorsWeb (evs : List Event) (ds : List Decision) (lo hi : Nat) (x v : String) :
    Nat :=
  (webPairVisitors evs ds lo hi x v).dedup.length

/-- The visitor_ids that the Full Stack unique-visitors query collects for the
group (x, v). -/
def fsPairVisitors (ds : List Decision) (lo hi : Nat) (x v : String) : List String :=
  ((fsQualifying ds lo hi).filter
    (fun d => decide (d.experiment_id = x ∧ d.variation_id = v))).map
    (fun d => d.visitor_id)

/-- `Unique visitors (Full Stack)`: `COUNT(distinct visitor_id)` for the group
(x, v).  The query's FROM clause reads only the `decisions` view, so the
`events` collection of the session is never inspected. -/
def uniqueVisitorsFullStack (_evs : List Event) (ds : List Decision) (lo hi : Nat)
    (x v : String) : Nat :=
  (fsPairVisitors ds lo hi x v).dedup.length

/-- Exploded rows of the Web conversion-count query:
one (experiment_id, variation_id, event_name) triple per in-window event
occurrence and enrichment entry. -/
def webConversionRows (evs : List Event) (lo hi : Nat) : List (String × String × String) :=
  (evs.filter (fun e => decide (lo ≤ e.timestamp ∧ e.timestamp ≤ hi))).flatMap
    (fun e => e.experiments.map (fun pr => (pr.1, pr.2, e.event_name)))

/-- `Conversion count (Optimizely Web)` for the group (x, v, n): `COUNT(1)`
over the exploded rows.  The query's FROM clause reads only the `events` view,
so the `decisions` collection of the session is never inspected. -/
def conversionCountWeb (evs : List Event) (_ds : List Decision) (lo hi : Nat)
    (x v n : String) : Nat :=
  (webConversionRows evs lo hi).countP (fun t => decide (t.1 = x ∧ t.2.1 = v ∧ t.2.2 = n))

/-- A row of the grouped inner subquery of the Full Stack conversion-count
query: one row per (experiment_id, variation_id, visitor_id) group of the
qualifying decisions, carrying `MIN(timestamp) as decision_timestamp`. -/
structure DecisionGroup where
  experiment_id : String
  variation_id : String
  visitor_id : String
  decision_timestamp : Nat
  deriving Repr, DecidableEq

/-- The `GROUP BY experiment_id, variation_id, visitor_id` key of a decision. -/
def groupKey (d : Decision) : String × String × String :=
  (d.experiment_id, d.variation_id, d.visitor_id)

/-- Minimum of the nonempty list `t :: ts` (the `MIN(timestamp)` aggregate of
a nonempty group). -/
def minTs (t : Nat) (ts : List Nat) : Nat := ts.foldl min t

/-- The qualifying decisions belonging to group key `k`. -/
def groupRows (fd : List Decision) (k : String × String × String) : List Decision :=
  fd.filter (fun d => decide (groupKey d = k))

/-- The grouped inner subquery of the Full Stack conversion-count query:
one `DecisionGroup` per distinct group key of the qualifying decisions, with
the minimum timestamp of the group. -/
def fsDecisionGroups (ds : List Decision) (lo hi : Nat) : List DecisionGroup :=
  (((fsQualifying ds lo hi).map groupKey).dedup).filterMap (fun k =>
    match (groupRows (fsQualifying ds lo hi) k).map (fun d => d.timestamp) with
    | [] => none
    | t :: ts => some ⟨k.1, k.2.1, k.2.2, minTs t ts⟩)

/-- The `INNER JOIN` of the Full Stack conversion-count query:
`events e JOIN (grouped decisions) d ON e.visitor_id = d.visitor_id` with
`e.timestamp between start and end AND e.timestamp >= d.decision_timestamp`.
The join is on `visitor_id` alone; the event's own `experiments` enrichment
is never consulted. -/
def fsJoinPairs (evs : List Event) (ds : List Decision) (lo hi : Nat) :
    List (DecisionGroup × Event) :=
  (fsDecisionGroups ds lo hi).flatMap (fun g =>
    (evs.filter (fun e => decide (e.visitor_id = g.visitor_id ∧
      lo ≤ e.timestamp ∧ e.timestamp ≤ hi ∧ g.decision_timestamp ≤ e.timestamp))).map
      (fun e => (g, e)))

/-- `Conversion count (Optimizely Full Stack)` for the group (x, v, n):
`COUNT(1)` over the joined rows. -/
def conversionCountFullStack (evs : List Event) (ds : List Decision) (lo hi : Nat)
    (x v n : String) : Nat :=
  (fsJoinPairs evs ds lo hi).countP (fun p =>
    decide (p.1.experiment_id = x ∧ p.1.variation_id = v ∧ p.2.event_name = n))

/-- Flip the `is_holdback` flag of a decision (used to state that the
subject-attribution pipeline never reads it). -/
def flipHoldback (d : Decision) : Decision := { d with is_holdback := !d.is_holdback }

/-- Two events that agree on everything except (possibly) their `experiments`
enrichment list. -/
def sameEventButExperiments (a b : Event) : Prop :=
  a.visitor_id = b.visitor_id ∧ a.event_name = b.event_name ∧ a.timestamp = b.timestamp

/-- Two decisions of the same (experiment, subject) pair sharing the same
timestamp: the tie case of the subject-attribution ranking. -/
def tiedDecisions : List Decision :=
  [⟨"s1", "e1", "vA", 7, false⟩, ⟨"s1", "e1", "vB", 7, false⟩]

/-- The single event of the concrete scenario:
(s1, "purchase", t=12, experiments=[(e1,vA)]). -/
def examplePurchase : List Event := [⟨"s1", "purchase", 12, [("e1", "vA")]⟩]

/-- The same event with its timestamp moved to t=5, before s1's earliest
decision. -/
def examplePurchaseEarly : List Event := [⟨"s1", "purchase", 5, [("e1", "vA")]⟩]

/-- The example purchase event with its `experiments` enrichment list
emptied (all other fields unchanged). -/
def examplePurchaseStripped : List Event := [⟨"s1", "purchase", 12, []⟩]

/-! Basic lemmas about the subject-attribution pipeline. -/

theorem isRankOne_iff (ds : List Decision) (d : Decision) :
    isRankOne ds d = true ↔
      ∀ d' ∈ ds, d.experiment_id = d'.experiment_id → d.visitor_id = d'.visitor_id →
        d.timestamp ≤ d'.timestamp := by
  simp only [isRankOne, sameKey, List.all_eq_true, Bool.or_eq_true, Bool.not_eq_true',
    decide_eq_false_iff_not, decide_eq_true_eq, not_and]
  constructor
  · intro h d' hd' h1 h2
    rcases h d' hd' with h | h
    · exact absurd h2 (h h1)
    · exact h
  · intro h d' hd'
    by_cases h1 : d.experiment_id = d'.experiment_id
    · by_cases h2 : d.visitor_id = d'.visitor_id
      · exact Or.inr (h d' hd' h1 h2)
      · exact Or.inl (fun _ => h2)
    · exact Or.inl (fun h' => absurd h' h1)

theorem mem_experiment_subjects {r : ExperimentSubject} {ds : List Decision} :
    r ∈ experiment_subjects ds ↔ ∃ d ∈ ds, isRankOne ds d = true ∧ toSubject d = r := by
  simp [experiment_subjects, List.mem_insertionSort, List.mem_map, List.mem_filter]
  constructor
  · rintro ⟨d, ⟨hd, hrk⟩, hr⟩; exact ⟨d, hd, hrk, hr⟩
  · rintro ⟨d, hd, hrk, hr⟩; exact ⟨d, ⟨hd, hrk⟩, hr⟩

/-- Every nonempty decision list has an element of minimal timestamp. -/
theorem exists_min_timestamp :
    ∀ (l : List Decision), l ≠ [] → ∃ m ∈ l, ∀ d ∈ l, m.timestamp ≤ d.timestamp := by
  intro l
  induction l with
  | nil => intro h; exact absurd rfl h
  | cons a l ih =>
    intro _
    by_cases hl : l = []
    · subst hl; exact ⟨a, List.mem_singleton.mpr rfl, by simp⟩
    · obtain ⟨m, hm, hmin⟩ := ih hl
      by_cases hc : a.timestamp ≤ m.timestamp
      · refine ⟨a, List.mem_cons_self a l, ?_⟩
        intro d hd
        rcases List.mem_cons.mp hd with h | h
        · subst h; exact le_refl _
        · exact le_trans hc (hmin d h)
      · refine ⟨m, List.mem_cons_of_mem a hm, ?_⟩
        intro d hd
        rcases List.mem_cons.mp hd with h | h
        · subst h; exact le_of_lt (lt_of_not_le hc)
        · exact hmin d h

/-- C1: for every filtered decision collection, each `experiment_subjects` row
carries the minimum decision timestamp of its (experiment_id, visitor_id)
pair together with the variation of a decision attaining that minimum; every
decision attaining its pair's minimum (so in particular every tie at the
minimum) yields a retained row; and on the concrete scenario
[(s1,e1,vA,10), (s1,e1,vB,20), (s2,e1,vA,15)] with window [0,100] the output
is exactly [(s1,e1,vA,10), (s2,e1,vA,15)]. -/
theorem C1_first_decision_min_and_ties (ds : List Decision) :
    (∀ r ∈ experiment_subjects ds,
      ∃ d ∈ ds, d.experiment_id = r.experiment_id ∧ d.visitor_id = r.visitor_id ∧
        d.variation_id = r.variation_id ∧ d.timestamp = r.timestamp ∧
        ∀ d' ∈ ds, d'.experiment_id = r.experiment_id → d'.visitor_id = r.visitor_id →
          r.timestamp ≤ d'.timestamp) ∧
    (∀ d ∈ ds,
      (∀ d' ∈ ds, d'.experiment_id = d.experiment_id → d'.visitor_id = d.visitor_id →
        d.timestamp ≤ d'.timestamp) →
      toSubject d ∈ experiment_subjects ds) ∧
    experiment_subjects (filterWindow exampleDecisions (fun d => d.timestamp) 0 100) =
      [⟨"s1", "e1", "vA", 10⟩, ⟨"s2", "e1", "vA", 15⟩] := by
  refine ⟨?_, ?_, by decide⟩
  · intro r hr
    obtain ⟨d, hd, hrk, hproj⟩ := mem_experiment_subjects.mp hr
    subst hproj
    refine ⟨d, hd, rfl, rfl, rfl, rfl, ?_⟩
    intro d' hd' h1 h2
    exact (isRankOne_iff ds d).mp hrk d' hd' h1.symm h2.symm
  · intro d hd hmin
    exact mem_experiment_subjects.mpr
      ⟨d, hd, (isRankOne_iff ds d).mpr (fun d' hd' h1 h2 => hmin d' hd' h1.symm h2.symm), rfl⟩

/-- Witness for C1: the tied-or-minimal decision (s1,e1,vA,10) of the concrete
scenario is minimal in its pair and its row is retained. -/
theorem C1_first_decision_min_and_ties_witness :
    toSubject ⟨"s1", "e1", "vA", 10, false⟩ ∈ experiment_subjects exampleDecisions :=
  (C1_first_decision_min_and_ties exampleDecisions).2.1 ⟨"s1", "e1", "vA", 10, false⟩
    (by decide) (by decide)

/-- C6 is refuted: on two decisions of the same (experiment, subject) pair
sharing the same timestamp, the `experiment_subjects` view keeps both rank-1
rows, so the pair (e1, s1) appears twice, not exactly once. -/
theorem C6_counterexample_duplicate_pair :
    (experiment_subjects tiedDecisions).countP
        (fun r => decide (r.experiment_id = "e1" ∧ r.visitor_id = "s1")) = 2 ∧
    ¬ (experiment_subjects tiedDecisions).countP
        (fun r => decide (r.experiment_id = "e1" ∧ r.visitor_id = "s1")) ≤ 1 := by
  decide

/-- Every (experiment, subject) pair present in a decision list is present in
the `experiment_subjects` view: the pair's minimal-timestamp decision has
rank 1 and its row is kept, whatever its `is_holdback` flag. -/
theorem pair_present_in_subjects (ds : List Decision) (x s : String)
    (h : ∃ d ∈ ds, d.experiment_id = x ∧ d.visitor_id = s) :
    ∃ r ∈ experiment_subjects ds, r.experiment_id = x ∧ r.visitor_id = s := by
  obtain ⟨d, hd, hx, hs⟩ := h
  have hne : ds.filter (fun d => decide (d.experiment_id = x ∧ d.visitor_id = s)) ≠ [] := by
    intro hnil
    have : d ∈ ds.filter (fun d => decide (d.experiment_id = x ∧ d.visitor_id = s)) := by
      simp [List.mem_filter, hd, hx, hs]
    rw [hnil] at this
    exact absurd this (List.not_mem_nil d)
  obtain ⟨m, hm, hmin⟩ := exists_min_timestamp _ hne
  rw [List.mem_filter, decide_eq_true_eq] at hm
  refine ⟨toSubject m, ?_, hm.2.1, hm.2.2⟩
  refine mem_experiment_subjects.mpr ⟨m, hm.1, (isRankOne_iff ds m).mpr ?_, rfl⟩
  intro d' hd' he hv
  refine hmin d' (List.mem_filter.mpr ⟨hd', ?_⟩)
  rw [decide_eq_true_eq]
  exact ⟨he.symm.trans hm.2.1, hv.symm.trans hm.2.2⟩

/-- C6 (amended): for every filtered decision set, the pairs
(experiment_id, subject_id) present in the `experiment_subjects` output are
exactly the pairs present in the input — no pair is missing and no absent
pair appears — and the number of output rows of a pair equals the number of
that pair's decisions attaining the pair's minimum timestamp, so a pair
appears exactly once whenever its minimum timestamp is uniquely attained. -/
theorem C6_amended_pair_multiplicity (ds : List Decision) (x s : String) :
    ((∃ d ∈ ds, d.experiment_id = x ∧ d.visitor_id = s) ↔
      (∃ r ∈ experiment_subjects ds, r.experiment_id = x ∧ r.visitor_id = s)) ∧
    (experiment_subjects ds).countP
        (fun r => decide (r.experiment_id = x ∧ r.visitor_id = s)) =
      ds.countP (fun d => decide ((d.experiment_id = x ∧ d.visitor_id = s) ∧
        ∀ d' ∈ ds, d'.experiment_id = x → d'.visitor_id = s →
          d.timestamp ≤ d'.timestamp)) := by
  constructor
  · constructor
    · exact pair_present_in_subjects ds x s
    · rintro ⟨r, hr, hx, hs⟩
      obtain ⟨d, hd, _, hproj⟩ := mem_experiment_subjects.mp hr
      subst hproj
      exact ⟨d, hd, hx, hs⟩
  · rw [experiment_subjects, (List.perm_insertionSort _ _).countP_eq, List.countP_map]
    rw [show ((ds.filter (isRankOne ds)).countP
        ((fun r => decide (r.experiment_id = x ∧ r.visitor_id = s)) ∘ toSubject)) =
      (ds.countP (fun d =>
        ((fun r => decide (r.experiment_id = x ∧ r.visitor_id = s)) ∘ toSubject) d &&
          isRankOne ds d)) from by simp [List.countP_filter]]
    apply List.countP_congr
    intro d _hd
    simp only [Function.comp_apply, Bool.and_eq_true, decide_eq_true_eq, toSubject,
      isRankOne_iff]
    constructor
    · rintro ⟨⟨hx, hs⟩, hmin⟩
      exact ⟨⟨hx, hs⟩, fun d' hd' he hv =>
        hmin d' hd' (hx.trans he.symm) (hs.trans hv.symm)⟩
    · rintro ⟨⟨hx, hs⟩, hmin⟩
      exact ⟨⟨hx, hs⟩, fun d' hd' he hv =>
        hmin d' hd' (he.symm.trans hx) (hv.symm.trans hs)⟩

/-- C3: for every row collection, timestamp field and bounds lo ≤ hi, the
window filter retains exactly the rows whose timestamp lies in the closed
interval [lo, hi] — so it is a restriction of its input — and it is
idempotent. -/
theorem C3_window_filter_exact_and_idempotent (α : Type) (rows : List α) (ts : α → Nat)
    (lo hi : Nat) (_h : lo ≤ hi) :
    (∀ r, r ∈ filterWindow rows ts lo hi ↔ (r ∈ rows ∧ lo ≤ ts r ∧ ts r ≤ hi)) ∧
    filterWindow rows ts lo hi ⊆ rows ∧
    filterWindow (filterWindow rows ts lo hi) ts lo hi = filterWindow rows ts lo hi := by
  refine ⟨?_, ?_, ?_⟩
  · intro r
    simp [filterWindow, List.mem_filter]
  · intro r hr
    exact (List.mem_filter.mp hr).1
  · apply List.filter_eq_self.mpr
    intro r hr
    exact (List.mem_filter.mp hr).2

/-- Witness for C3: the filter over [0, 100] on a concrete collection is
idempotent, with the bounds hypothesis 0 ≤ 100 satisfied. -/
theorem C3_window_filter_witness :
    (0 : Nat) ≤ 100 ∧
    filterWindow (filterWindow [1, 5, 200] id 0 100) id 0 100 =
      filterWindow [1, 5, 200] id 0 100 :=
  ⟨by decide, (C3_window_filter_exact_and_idempotent Nat [1, 5, 200] id 0 100 (by decide)).2.2⟩

/-- C4: the Full Stack unique-visitor count of a pair (x, v) equals the number
of distinct visitor_ids among the in-window non-holdback decisions of that
pair, and never exceeds the number of such decision rows. -/
theorem C4_fullstack_unique_visitors (evs : List Event) (ds : List Decision) (lo hi : Nat)
    (x v : String) :
    uniqueVisitorsFullStack evs ds lo hi x v =
      ((ds.filter (fun d => decide (lo ≤ d.timestamp ∧ d.timestamp ≤ hi ∧
        d.is_holdback = false ∧ d.experiment_id = x ∧ d.variation_id = v))).map
        (fun d => d.visitor_id)).toFinset.card ∧
    uniqueVisitorsFullStack evs ds lo hi x v ≤
      (ds.filter (fun d => decide (lo ≤ d.timestamp ∧ d.timestamp ≤ hi ∧
        d.is_holdback = false ∧ d.experiment_id = x ∧ d.variation_id = v))).length := by
  have hfil : (fsQualifying ds lo hi).filter
      (fun d => decide (d.experiment_id = x ∧ d.variation_id = v)) =
      ds.filter (fun d => decide (lo ≤ d.timestamp ∧ d.timestamp ≤ hi ∧
        d.is_holdback = false ∧ d.experiment_id = x ∧ d.variation_id = v)) := by
    rw [fsQualifying, List.filter_filter]
    apply List.filter_congr
    intro d _hd
    apply Bool.eq_iff_iff.mpr
    simp only [Bool.and_eq_true, decide_eq_true_eq]
    tauto
  constructor
  · rw [uniqueVisitorsFullStack, fsPairVisitors, hfil]
    exact (List.card_toFinset _).symm
  · rw [uniqueVisitorsFullStack, fsPairVisitors, hfil]
    calc (((ds.filter _).map (fun d => d.visitor_id)).dedup).length
        ≤ ((ds.filter _).map (fun d => d.visitor_id)).length :=
          (List.dedup_sublist _).length_le
      _ = _ := List.length_map _ _

/-- Counting a predicate over a flattened list sums the per-element counts. -/
theorem countP_flatMap_eq_sum {α β : Type} (l : List α) (f : α → List β) (p : β → Bool) :
    (l.flatMap f).countP p = (l.map (fun a => (f a).countP p)).sum := by
  induction l with
  | nil => rfl
  | cons a l ih => simp [List.flatMap_cons, List.countP_append, ih]

/-- The exploded rows of one event that match (x, v, n): all of the event's
enrichment entries equal to (x, v) when the event is named n, none otherwise. -/
theorem event_rows_countP (e : Event) (x v n : String) :
    (e.experiments.map (fun pr => (pr.1, pr.2, e.event_name))).countP
      (fun t => decide (t.1 = x ∧ t.2.1 = v ∧ t.2.2 = n)) =
    if e.event_name = n then e.experiments.count (x, v) else 0 := by
  rw [List.countP_map]
  by_cases hn : e.event_name = n
  · subst hn
    rw [if_pos rfl, List.count]
    apply List.countP_congr
    intro pr _hpr
    simp only [Function.comp_apply, decide_eq_true_eq, beq_iff_eq, Prod.ext_iff]
    tauto
  · rw [if_neg hn]
    apply List.countP_eq_zero.mpr
    intro pr _hpr
    simp only [Function.comp_apply, decide_eq_true_eq, not_and]
    intro _ _ h3
    exact hn h3

/-- The Web conversion count as a sum of per-event enrichment multiplicities. -/
theorem web_rows_sum (lo hi : Nat) (x v n : String) (evs : List Event) :
    ((evs.filter (fun e => decide (lo ≤ e.timestamp ∧ e.timestamp ≤ hi))).map
      (fun e => (e.experiments.map (fun pr => (pr.1, pr.2, e.event_name))).countP
        (fun t => decide (t.1 = x ∧ t.2.1 = v ∧ t.2.2 = n)))).sum =
    ((evs.filter (fun e => decide (lo ≤ e.timestamp ∧ e.timestamp ≤ hi ∧
      e.event_name = n))).map (fun e => e.experiments.count (x, v))).sum := by
  induction evs with
  | nil => rfl
  | cons e evs ih =>
    by_cases hw : lo ≤ e.timestamp ∧ e.timestamp ≤ hi
    · by_cases hn : e.event_name = n
      · rw [List.filter_cons_of_pos (by simp [hw]), List.filter_cons_of_pos (by simp [hw, hn]),
          List.map_cons, List.map_cons, List.sum_cons, List.sum_cons, ih,
          event_rows_countP, if_pos hn]
      · rw [List.filter_cons_of_pos (by simp [hw]), List.filter_cons_of_neg (by simp [hw, hn]),
          List.map_cons, List.sum_cons, ih, event_rows_countP, if_neg hn, Nat.zero_add]
    · rw [List.filter_cons_of_neg (by simp [hw]), List.filter_cons_of_neg ?_, ih]
      simp only [decide_eq_true_eq, not_and] at hw ⊢
      intro h1 h2
      exact absurd h2 (hw h1)

/-- Summing an indicator over a list counts the satisfying elements. -/
theorem sum_indicator_eq_countP {α : Type} (l : List α) (q : α → Bool) :
    (l.map (fun a => if q a then 1 else 0)).sum = l.countP q := by
  induction l with
  | nil => rfl
  | cons a l ih => simp [List.countP_cons, ih, Nat.add_comm]

/-- In a duplicate-free list, a present element is counted exactly once. -/
theorem count_eq_one_of_nodup_mem (l : List (String × String)) (a : String × String)
    (hnd : l.Nodup) (ha : a ∈ l) : l.count a = 1 := by
  induction l with
  | nil => cases ha
  | cons b l ih =>
    rcases List.mem_cons.mp ha with h | h
    · subst h
      rw [List.count_cons_self, List.count_eq_zero_of_not_mem (List.nodup_cons.mp hnd).1]
    · have hb : a ≠ b := by
        rintro rfl
        exact (List.nodup_cons.mp hnd).1 h
      rw [List.count_cons_of_ne hb]
      exact ih (List.nodup_cons.mp hnd).2 h

/-- An in-window event whose enrichment lists the same (experiment, variation)
pair twice. -/
def dupEnrichedEvents : List Event :=
  [⟨"s1", "purchase", 12, [("e1", "vA"), ("e1", "vA")]⟩]

/-- C5 is refuted as stated: the Web conversion count counts one row per
exploded enrichment entry, not one per event occurrence, so an event whose
`experiments` list holds (e1, vA) twice is counted twice while only one
in-window event occurrence lists (e1, vA). -/
theorem C5_counterexample_duplicate_enrichment :
    conversionCountWeb dupEnrichedEvents [] 0 100 "e1" "vA" "purchase" = 2 ∧
    dupEnrichedEvents.countP (fun e => decide (0 ≤ e.timestamp ∧ e.timestamp ≤ 100 ∧
      e.event_name = "purchase" ∧ ("e1", "vA") ∈ e.experiments)) = 1 ∧
    conversionCountWeb dupEnrichedEvents [] 0 100 "e1" "vA" "purchase" ≠
      dupEnrichedEvents.countP (fun e => decide (0 ≤ e.timestamp ∧ e.timestamp ≤ 100 ∧
        e.event_name = "purchase" ∧ ("e1", "vA") ∈ e.experiments)) := by
  refine ⟨by decide, by decide, by decide⟩

/-- C5 (amended): the Web conversion count is computed from the events
collection alone — it is identical under arbitrary replacement of the
decisions collection — and for every (x, v, n) it equals the total number of
enrichment entries equal to (x, v) over in-window events named n, counted
with multiplicity (one count per exploded enrichment entry, not deduplicated
by subject, with no requirement that any decision exist in-window); when no
event's enrichment list repeats a pair, this is exactly the number of
in-window event occurrences named n whose enrichment lists (x, v). -/
theorem C5_web_conversion_decisions_blind (evs : List Event) (ds ds' : List Decision)
    (lo hi : Nat) (x v n : String) :
    conversionCountWeb evs ds lo hi x v n = conversionCountWeb evs ds' lo hi x v n ∧
    conversionCountWeb evs ds lo hi x v n =
      ((evs.filter (fun e => decide (lo ≤ e.timestamp ∧ e.timestamp ≤ hi ∧
        e.event_name = n))).map (fun e => e.experiments.count (x, v))).sum ∧
    ((∀ e ∈ evs, e.experiments.Nodup) →
      conversionCountWeb evs ds lo hi x v n =
        evs.countP (fun e => decide (lo ≤ e.timestamp ∧ e.timestamp ≤ hi ∧
          e.event_name = n ∧ (x, v) ∈ e.experiments))) := by
  have hsum : conversionCountWeb evs ds lo hi x v n =
      ((evs.filter (fun e => decide (lo ≤ e.timestamp ∧ e.timestamp ≤ hi ∧
        e.event_name = n))).map (fun e => e.experiments.count (x, v))).sum := by
    rw [conversionCountWeb, webConversionRows, countP_flatMap_eq_sum, web_rows_sum]
  refine ⟨rfl, hsum, ?_⟩
  intro hnodup
  rw [hsum]
  rw [List.map_congr_left (g := fun e => if decide ((x, v) ∈ e.experiments) then 1 else 0) ?_]
  · rw [sum_indicator_eq_countP]
    rw [show (evs.filter (fun e => decide (lo ≤ e.timestamp ∧ e.timestamp ≤ hi ∧
        e.event_name = n))).countP (fun e => decide ((x, v) ∈ e.experiments)) =
      evs.countP (fun e => decide ((x, v) ∈ e.experiments) &&
        decide (lo ≤ e.timestamp ∧ e.timestamp ≤ hi ∧ e.event_name = n)) from by
      simp [List.countP_filter]]
    apply List.countP_congr
    intro e _he
    simp only [Bool.and_eq_true, decide_eq_true_eq]
    tauto
  · intro e he
    have hmem := (List.mem_filter.mp he).1
    show List.count (x, v) e.experiments =
      if decide ((x, v) ∈ e.experiments) = true then 1 else 0
    by_cases hin : (x, v) ∈ e.experiments
    · rw [if_pos (decide_eq_true hin)]
      exact count_eq_one_of_nodup_mem _ _ (hnodup e hmem) hin
    · rw [if_neg (by simpa using hin)]
      exact List.count_eq_zero_of_not_mem hin

/-- Witness for C5: on the concrete scenario with duplicate-free enrichment,
the Web count equals the in-window occurrence count. -/
theorem C5_web_conversion_decisions_blind_witness :
    conversionCountWeb examplePurchase [] 0 100 "e1" "vA" "purchase" =
      examplePurchase.countP (fun e => decide (0 ≤ e.timestamp ∧ e.timestamp ≤ 100 ∧
        e.event_name = "purchase" ∧ ("e1", "vA") ∈ e.experiments)) :=
  (C5_web_conversion_decisions_blind examplePurchase [] [] 0 100 "e1" "vA" "purchase").2.2
    (by decide)

theorem mem_fsQualifying {d : Decision} {ds : List Decision} {lo hi : Nat} :
    d ∈ fsQualifying ds lo hi ↔
      d ∈ ds ∧ lo ≤ d.timestamp ∧ d.timestamp ≤ hi ∧ d.is_holdback = false := by
  simp [fsQualifying, List.mem_filter]

theorem minTs_le (ts : List Nat) : ∀ (t : Nat), ∀ a ∈ t :: ts, minTs t ts ≤ a := by
  induction ts with
  | nil =>
    intro t a ha
    rw [List.mem_singleton] at ha
    subst ha
    exact le_refl _
  | cons b bs ih =>
    intro t a ha
    have step : minTs t (b :: bs) = minTs (min t b) bs := rfl
    rcases List.mem_cons.mp ha with h | h
    · rw [h, step]
      exact le_trans (ih _ _ (List.mem_cons_self _ _)) (min_le_left t b)
    · rcases List.mem_cons.mp h with h2 | h2
      · rw [h2, step]
        exact le_trans (ih _ _ (List.mem_cons_self _ _)) (min_le_right t b)
      · rw [step]
        exact ih _ a (List.mem_cons_of_mem _ h2)

theorem minTs_mem (ts : List Nat) : ∀ (t : Nat), minTs t ts ∈ t :: ts := by
  induction ts with
  | nil =>
    intro t
    exact List.mem_singleton.mpr rfl
  | cons b bs ih =>
    intro t
    have step : minTs t (b :: bs) = minTs (min t b) bs := rfl
    rw [step]
    have hmc : min t b = t ∨ min t b = b := min_choice t b
    rcases List.mem_cons.mp (ih (min t b)) with h | h
    · rw [h]
      rcases hmc with hm | hm
      · rw [hm]
        exact List.mem_cons_self _ _
      · rw [hm]
        exact List.mem_cons_of_mem t (List.mem_cons_self _ _)
    · exact List.mem_cons.mpr (Or.inr (List.mem_cons_of_mem b h))

theorem fsDecisionGroups_sound (ds : List Decision) (lo hi : Nat) (g : DecisionGroup)
    (hg : g ∈ fsDecisionGroups ds lo hi) :
    (∃ d ∈ fsQualifying ds lo hi,
      groupKey d = (g.experiment_id, g.variation_id, g.visitor_id) ∧
      d.timestamp = g.decision_timestamp) ∧
    (∀ d ∈ fsQualifying ds lo hi,
      groupKey d = (g.experiment_id, g.variation_id, g.visitor_id) →
      g.decision_timestamp ≤ d.timestamp) := by
  rw [fsDecisionGroups, List.mem_filterMap] at hg
  obtain ⟨k, _hk, hfk⟩ := hg
  cases hrows : groupRows (fsQualifying ds lo hi) k with
  | nil => rw [hrows] at hfk; simp at hfk
  | cons d0 rest =>
    rw [hrows] at hfk
    simp only [List.map_cons, Option.some.injEq] at hfk
    subst hfk
    obtain ⟨k1, k2, k3⟩ := k
    constructor
    · have hmem := minTs_mem (rest.map (fun d => d.timestamp)) d0.timestamp
      rw [show d0.timestamp :: rest.map (fun d => d.timestamp) =
          (d0 :: rest).map (fun d => d.timestamp) from rfl, ← hrows] at hmem
      rw [List.mem_map] at hmem
      obtain ⟨dm, hdm, hts⟩ := hmem
      have hdm' := List.mem_filter.mp hdm
      refine ⟨dm, hdm'.1, ?_, hts⟩
      simpa using hdm'.2
    · intro d hd hkey
      have hd' : d ∈ groupRows (fsQualifying ds lo hi) (k1, k2, k3) :=
        List.mem_filter.mpr ⟨hd, by simpa using hkey⟩
      rw [hrows] at hd'
      have : d.timestamp ∈ d0.timestamp :: rest.map (fun d => d.timestamp) := by
        rw [show d0.timestamp :: rest.map (fun d => d.timestamp) =
            (d0 :: rest).map (fun d => d.timestamp) from rfl]
        exact List.mem_map.mpr ⟨d, hd', rfl⟩
      exact minTs_le _ _ _ this

/-- Unfolding of membership in the event–group join. -/
theorem mem_fsJoinPairs {p : DecisionGroup × Event} {evs : List Event} {ds : List Decision}
    {lo hi : Nat} :
    p ∈ fsJoinPairs evs ds lo hi ↔
      p.1 ∈ fsDecisionGroups ds lo hi ∧ p.2 ∈ evs ∧
      p.2.visitor_id = p.1.visitor_id ∧ lo ≤ p.2.timestamp ∧ p.2.timestamp ≤ hi ∧
      p.1.decision_timestamp ≤ p.2.timestamp := by
  obtain ⟨g, e⟩ := p
  simp only [fsJoinPairs, List.mem_flatMap, List.mem_map, List.mem_filter,
    decide_eq_true_eq, Prod.mk.injEq]
  constructor
  · rintro ⟨g', hg', e', ⟨⟨he', h1, h2, h3, h4⟩, hge, hee⟩⟩
    subst hge
    subst hee
    exact ⟨hg', he', h1, h2, h3, h4⟩
  · rintro ⟨hg, he, h1, h2, h3, h4⟩
    exact ⟨g, hg, e, ⟨⟨he, h1, h2, h3, h4⟩, rfl, rfl⟩⟩

/-- C2: every event occurrence counted by the Full Stack conversion query is
an in-window event joined to a decision group of its own subject whose
`decision_timestamp` is the minimum in-window non-holdback decision timestamp
of that (experiment_id, variation_id, subject) group and is ≤ the event's
timestamp; consequently a subject with no in-window non-holdback decision
contributes no joined row at all. -/
theorem C2_fullstack_conversion_soundness (evs : List Event) (ds : List Decision)
    (lo hi : Nat) :
    (∀ p ∈ fsJoinPairs evs ds lo hi,
      lo ≤ p.2.timestamp ∧ p.2.timestamp ≤ hi ∧
      p.1.decision_timestamp ≤ p.2.timestamp ∧
      p.2.visitor_id = p.1.visitor_id ∧
      (∃ d ∈ ds, d.experiment_id = p.1.experiment_id ∧ d.variation_id = p.1.variation_id ∧
        d.visitor_id = p.1.visitor_id ∧ lo ≤ d.timestamp ∧ d.timestamp ≤ hi ∧
        d.is_holdback = false ∧ d.timestamp = p.1.decision_timestamp) ∧
      (∀ d ∈ ds, d.experiment_id = p.1.experiment_id → d.variation_id = p.1.variation_id →
        d.visitor_id = p.1.visitor_id → lo ≤ d.timestamp → d.timestamp ≤ hi →
        d.is_holdback = false → p.1.decision_timestamp ≤ d.timestamp)) ∧
    (∀ subj : String,
      (∀ d ∈ ds, d.visitor_id = subj →
        d.is_holdback = true ∨ d.timestamp < lo ∨ hi < d.timestamp) →
      ∀ p ∈ fsJoinPairs evs ds lo hi, p.2.visitor_id ≠ subj) := by
  have main : ∀ p ∈ fsJoinPairs evs ds lo hi,
      lo ≤ p.2.timestamp ∧ p.2.timestamp ≤ hi ∧
      p.1.decision_timestamp ≤ p.2.timestamp ∧
      p.2.visitor_id = p.1.visitor_id ∧
      (∃ d ∈ ds, d.experiment_id = p.1.experiment_id ∧ d.variation_id = p.1.variation_id ∧
        d.visitor_id = p.1.visitor_id ∧ lo ≤ d.timestamp ∧ d.timestamp ≤ hi ∧
        d.is_holdback = false ∧ d.timestamp = p.1.decision_timestamp) ∧
      (∀ d ∈ ds, d.experiment_id = p.1.experiment_id → d.variation_id = p.1.variation_id →
        d.visitor_id = p.1.visitor_id → lo ≤ d.timestamp → d.timestamp ≤ hi →
        d.is_holdback = false → p.1.decision_timestamp ≤ d.timestamp) := by
    intro p hp
    obtain ⟨hg, _he, h1, h2, h3, h4⟩ := mem_fsJoinPairs.mp hp
    obtain ⟨⟨d0, hd0, hkey0, hts0⟩, hlow⟩ := fsDecisionGroups_sound ds lo hi p.1 hg
    obtain ⟨hd0mem, hw1, hw2, hw3⟩ := mem_fsQualifying.mp hd0
    refine ⟨h2, h3, h4, h1, ?_, ?_⟩
    · refine ⟨d0, hd0mem, ?_, ?_, ?_, hw1, hw2, hw3, hts0⟩
      · exact congrArg Prod.fst hkey0
      · exact congrArg (fun t => t.2.1) hkey0
      · exact congrArg (fun t => t.2.2) hkey0
    · intro d hd he hv hvis hl hh hb
      refine hlow d (mem_fsQualifying.mpr ⟨hd, hl, hh, hb⟩) ?_
      rw [groupKey, he, hv, hvis]
  refine ⟨main, ?_⟩
  intro subj hnone p hp hvis
  obtain ⟨_, _, _, h1, ⟨d, hd, _, _, hdx, hl, hh, hb, _⟩, _⟩ := main p hp
  have := hnone d hd (by rw [hdx, ← h1, hvis])
  rcases this with h | h | h
  · rw [hb] at h
    cases h
  · exact absurd hl (not_le.mpr h)
  · exact absurd hh (not_le.mpr h)

/-- Witness for C2: on the concrete scenario, the joined pair of the purchase
event at t=12 with the (e1, vA, s1) group satisfies the window and ordering
facts. -/
theorem C2_fullstack_conversion_soundness_witness :
    0 ≤ 12 ∧ 12 ≤ 100 ∧ 10 ≤ 12 :=
  have h := (C2_fullstack_conversion_soundness examplePurchase exampleDecisions 0 100).1
    (⟨"e1", "vA", "s1", 10⟩, ⟨"s1", "purchase", 12, [("e1", "vA")]⟩) (by decide)
  ⟨h.1, h.2.1, h.2.2.1⟩

/-- C7: on the concrete scenario — decisions [(s1,e1,vA,10), (s1,e1,vB,20),
(s2,e1,vA,15)], window [0,100] — the purchase event of s1 at t=12 enriched
with (e1,vA) yields Full Stack conversion count 1 for (e1,vA,"purchase") and
0 for (e1,vB,·); moving the event to t=5 (before s1's earliest decision at
t=10) drops the Full Stack count to 0 while the Web count stays 1. -/
theorem C7_concrete_conversion_counts :
    conversionCountFullStack examplePurchase exampleDecisions 0 100 "e1" "vA" "purchase" = 1 ∧
    (∀ n : String,
      conversionCountFullStack examplePurchase exampleDecisions 0 100 "e1" "vB" n = 0) ∧
    conversionCountFullStack examplePurchaseEarly exampleDecisions 0 100 "e1" "vA"
      "purchase" = 0 ∧
    conversionCountWeb examplePurchaseEarly exampleDecisions 0 100 "e1" "vA" "purchase" = 1 := by
  refine ⟨by decide, ?_, by decide, by decide⟩
  intro n
  have hjoin : fsJoinPairs examplePurchase exampleDecisions 0 100 =
      [(⟨"e1", "vA", "s1", 10⟩, ⟨"s1", "purchase", 12, [("e1", "vA")]⟩)] := by decide
  rw [conversionCountFullStack, hjoin]
  apply List.countP_eq_zero.mpr
  intro q hq
  rw [List.mem_singleton] at hq
  subst hq
  simp only [decide_eq_true_eq, not_and]
  intro _ hv
  exact absurd hv (by decide)

/-- A count over events that only inspects the fields preserved by
`sameEventButExperiments` is invariant under pointwise replacement of the
enrichment lists. -/
theorem countP_eq_of_forall2 (q : Event → Bool)
    (hq : ∀ a b, sameEventButExperiments a b → q a = q b) :
    ∀ {evs evs' : List Event}, List.Forall₂ sameEventButExperiments evs evs' →
      evs.countP q = evs'.countP q := by
  intro evs evs' h
  induction h with
  | nil => rfl
  | cons hab _ ih => simp [List.countP_cons, ih, hq _ _ hab]

/-- C8: the Full Stack queries never read the events' `experiments`
enrichment: for events lists that agree pointwise on visitor_id, event_name
and timestamp, the Full Stack conversion count and unique-visitor count are
identical; and the join credits an event to every decision group of its
subject whose window and ordering conditions hold, regardless of enrichment. -/
theorem C8_fullstack_enrichment_blind (evs evs' : List Event) (ds : List Decision)
    (lo hi : Nat) (x v n : String)
    (h : List.Forall₂ sameEventButExperiments evs evs') :
    conversionCountFullStack evs ds lo hi x v n =
      conversionCountFullStack evs' ds lo hi x v n ∧
    uniqueVisitorsFullStack evs ds lo hi x v = uniqueVisitorsFullStack evs' ds lo hi x v ∧
    (∀ g ∈ fsDecisionGroups ds lo hi, ∀ e ∈ evs, e.visitor_id = g.visitor_id →
      lo ≤ e.timestamp → e.timestamp ≤ hi → g.decision_timestamp ≤ e.timestamp →
      (g, e) ∈ fsJoinPairs evs ds lo hi) := by
  refine ⟨?_, rfl, ?_⟩
  · rw [conversionCountFullStack, conversionCountFullStack, fsJoinPairs, fsJoinPairs,
      countP_flatMap_eq_sum, countP_flatMap_eq_sum]
    congr 1
    apply List.map_congr_left
    intro g _hg
    rw [List.countP_map, List.countP_map]
    rw [show ((evs.filter (fun e => decide (e.visitor_id = g.visitor_id ∧
        lo ≤ e.timestamp ∧ e.timestamp ≤ hi ∧ g.decision_timestamp ≤ e.timestamp))).countP
        ((fun p => decide (p.1.experiment_id = x ∧ p.1.variation_id = v ∧
          p.2.event_name = n)) ∘ (fun e => (g, e)))) =
      (evs.countP (fun e =>
        ((fun p => decide (p.1.experiment_id = x ∧ p.1.variation_id = v ∧
          p.2.event_name = n)) ∘ (fun e => (g, e))) e &&
        decide (e.visitor_id = g.visitor_id ∧
          lo ≤ e.timestamp ∧ e.timestamp ≤ hi ∧ g.decision_timestamp ≤ e.timestamp)))
      from by simp [List.countP_filter]]
    rw [show ((evs'.filter (fun e => decide (e.visitor_id = g.visitor_id ∧
        lo ≤ e.timestamp ∧ e.timestamp ≤ hi ∧ g.decision_timestamp ≤ e.timestamp))).countP
        ((fun p => decide (p.1.experiment_id = x ∧ p.1.variation_id = v ∧
          p.2.event_name = n)) ∘ (fun e => (g, e)))) =
      (evs'.countP (fun e =>
        ((fun p => decide (p.1.experiment_id = x ∧ p.1.variation_id = v ∧
          p.2.event_name = n)) ∘ (fun e => (g, e))) e &&
        decide (e.visitor_id = g.visitor_id ∧
          lo ≤ e.timestamp ∧ e.timestamp ≤ hi ∧ g.decision_timestamp ≤ e.timestamp)))
      from by simp [List.countP_filter]]
    apply countP_eq_of_forall2 _ _ h
    intro a b hab
    obtain ⟨h1, h2, h3⟩ := hab
    simp only [Function.comp_apply, h1, h2, h3]
  · intro g hg e he h1 h2 h3 h4
    exact mem_fsJoinPairs.mpr ⟨hg, he, h1, h2, h3, h4⟩

/-- Witness for C8: stripping the enrichment list of the concrete purchase
event leaves the Full Stack conversion count unchanged. -/
theorem C8_fullstack_enrichment_blind_witness :
    conversionCountFullStack examplePurchase exampleDecisions 0 100 "e1" "vA" "purchase" =
      conversionCountFullStack examplePurchaseStripped exampleDecisions 0 100 "e1" "vA"
        "purchase" :=
  (C8_fullstack_enrichment_blind examplePurchase examplePurchaseStripped exampleDecisions
    0 100 "e1" "vA" "purchase"
    (List.Forall₂.cons ⟨rfl, rfl, rfl⟩ List.Forall₂.nil)).1

/-- C9: the subject-attribution pipeline never consults `is_holdback` — its
output is unchanged when every flag is flipped — so every decision's
(experiment, subject) pair appears in the output whatever its flag; a
subject whose only in-window decision is a holdback still yields an
`experiment_subjects` row (and a §4.4 `subject_count` of 1), while the Full
Stack unique-visitor count of the same input is 0. -/
theorem C9_holdback_ignored_by_subjects (ds : List Decision) (d : Decision) (hd : d ∈ ds) :
    experiment_subjects (ds.map flipHoldback) = experiment_subjects ds ∧
    (∃ r ∈ experiment_subjects ds, r.experiment_id = d.experiment_id ∧
      r.visitor_id = d.visitor_id) ∧
    subject_count (experiment_subjects [⟨"s9", "e9", "v9", 5, true⟩]) "e9" "v9" = 1 ∧
    uniqueVisitorsFullStack [] [⟨"s9", "e9", "v9", 5, true⟩] 0 100 "e9" "v9" = 0 := by
  refine ⟨?_, ?_, by decide, by decide⟩
  · have hrank : ∀ a : Decision,
        isRankOne (ds.map flipHoldback) (flipHoldback a) = isRankOne ds a := by
      intro a
      rw [isRankOne, isRankOne, List.all_map]
      rfl
    have hfilter : (ds.map flipHoldback).filter (isRankOne (ds.map flipHoldback)) =
        (ds.filter (isRankOne ds)).map flipHoldback := by
      rw [List.filter_map]
      congr 1
      apply List.filter_congr
      intro a _ha
      rw [Function.comp_apply, hrank a]
    rw [experiment_subjects, experiment_subjects, hfilter, List.map_map]
    rfl
  · exact pair_present_in_subjects ds d.experiment_id d.visitor_id ⟨d, hd, rfl, rfl⟩

/-- Witness for C9: on the concrete scenario the flip-invariance holds, and
the holdback-only subject appears in the subjects rollup. -/
theorem C9_holdback_ignored_by_subjects_witness :
    experiment_subjects (exampleDecisions.map flipHoldback) =
      experiment_subjects exampleDecisions ∧
    subject_count (experiment_subjects [⟨"s9", "e9", "v9", 5, true⟩]) "e9" "v9" = 1 :=
  ⟨(C9_holdback_ignored_by_subjects exampleDecisions ⟨"s1", "e1", "vA", 10, false⟩
      (by decide)).1,
   (C9_holdback_ignored_by_subjects exampleDecisions ⟨"s1", "e1", "vA", 10, false⟩
      (by decide)).2.2.1⟩

/-- The decisions branch of the Web unique-visitors query, restricted to a
pair and projected to visitors, is exactly the Full Stack visitor list. -/
theorem webDecision_branch_aligned (ds : List Decision) (lo hi : Nat) (x v : String) :
    ((webDecisionTriples ds lo hi).filter (fun t => decide (t.1 = x ∧ t.2.1 = v))).map
      (fun t => t.2.2) = fsPairVisitors ds lo hi x v := by
  rw [webDecisionTriples, fsPairVisitors, List.filter_map, List.map_map]
  rfl

/-- C10: for every input and pair (x, v), the set of subjects counted by the
Web unique-visitors query is the union of the exploded in-window event
triples with exactly the in-window non-holdback decision triples counted by
Full Stack, so the Web unique-visitor count is at least the Full Stack one. -/
theorem C10_web_visitors_dominate_fullstack (evs : List Event) (ds : List Decision)
    (lo hi : Nat) (x v : String) :
    uniqueVisitorsFullStack evs ds lo hi x v ≤ uniqueVisitorsWeb evs ds lo hi x v ∧
    (webPairVisitors evs ds lo hi x v).toFinset =
      (((webEventTriples evs lo hi).filter (fun t => decide (t.1 = x ∧ t.2.1 = v))).map
        (fun t => t.2.2)).toFinset ∪ (fsPairVisitors ds lo hi x v).toFinset := by
  have hunion : (webPairVisitors evs ds lo hi x v).toFinset =
      (((webEventTriples evs lo hi).filter (fun t => decide (t.1 = x ∧ t.2.1 = v))).map
        (fun t => t.2.2)).toFinset ∪ (fsPairVisitors ds lo hi x v).toFinset := by
    rw [← webDecision_branch_aligned ds lo hi x v, webPairVisitors, webVisitorRows]
    ext a
    simp only [List.mem_toFinset, Finset.mem_union, List.mem_map, List.mem_filter,
      List.mem_dedup, List.mem_append]
    constructor
    · rintro ⟨t, ⟨ht | ht, hp⟩, rfl⟩
      · exact Or.inl ⟨t, ⟨ht, hp⟩, rfl⟩
      · exact Or.inr ⟨t, ⟨ht, hp⟩, rfl⟩
    · rintro (⟨t, ⟨ht, hp⟩, rfl⟩ | ⟨t, ⟨ht, hp⟩, rfl⟩)
      · exact ⟨t, ⟨Or.inl ht, hp⟩, rfl⟩
      · exact ⟨t, ⟨Or.inr ht, hp⟩, rfl⟩
  refine ⟨?_, hunion⟩
  rw [uniqueVisitorsFullStack, uniqueVisitorsWeb,
    show (fsPairVisitors ds lo hi x v).dedup.length =
      (fsPairVisitors ds lo hi x v).toFinset.card from (List.card_toFinset _).symm,
    show (webPairVisitors evs ds lo hi x v).dedup.length =
      (webPairVisitors evs ds lo hi x v).toFinset.card from (List.card_toFinset _).symm]
  apply Finset.card_le_card
  rw [hunion]
  exact Finset.subset_union_right
